import Mathlib

/-!
Shallow embedding of the playback-scheduling and weighted track-selection
core of the single-file React application of this repository (App.tsx).
JavaScript numbers are modelled as exact rationals, string-keyed records
as association lists, the `Math.random()` draw as an explicit parameter
`u` ranging over `[0, 1)`, and the timer/promise machinery of the monitor
loop as an explicit event-step function on a small state type.
-/

namespace RainbowRadio

/-- Track record (`type Track` in the source).  The scoring code reads
`t.weight ?? 1`, so the weight is modelled as optional, defaulted to 1. -/
structure Track where
  id : String
  name : String
  fileName : String
  url : String
  tags : List String
  weight : Option ℚ
deriving DecidableEq

/-- Station record (`type Station` in the source); `tagWeights` is a
`Record<string, number>`, modelled as an association list whose keys are
distinct, looked up by first match. -/
structure Station where
  name : String
  description : String
  tagWeights : List (String × ℚ)
  crossfadeDefaultSec : ℚ
deriving DecidableEq

/-- Whitespace class of the JavaScript regex `\s` (ASCII part). -/
def jsWhitespace (c : Char) : Bool :=
  c == ' ' || c == '\t' || c == '\n' || c == '\r' || c == '\x0b' || c == '\x0c'

/-- JavaScript `String.prototype.trim`: drop whitespace at both ends. -/
def jsTrim (l : List Char) : List Char :=
  ((l.dropWhile jsWhitespace).reverse.dropWhile jsWhitespace).reverse

/-- JavaScript `replace(/\s+/g, " ")`: collapse each maximal whitespace run
to a single space.  The Boolean argument records whether the previous
character was whitespace. -/
def collapseWS : Bool → List Char → List Char
  | _, [] => []
  | prevWS, c :: cs =>
    if jsWhitespace c then
      if prevWS then collapseWS true cs else ' ' :: collapseWS true cs
    else c :: collapseWS false cs

/-- Character class kept by `replace(/[^a-z0-9\- _]/g, "")`. -/
def keepChar (c : Char) : Bool :=
  (decide ('a' ≤ c) && decide (c ≤ 'z')) ||
  (decide ('0' ≤ c) && decide (c ≤ '9')) ||
  c == '-' || c == ' ' || c == '_'

/-- `normalizeTag` from the source: lower-case (ASCII; JavaScript
`toLowerCase` restricted to the ASCII range), trim, collapse whitespace
runs to one space, drop every character outside `[a-z0-9\- _]`. -/
def normalizeTag (s : String) : String :=
  String.mk ((collapseWS false (jsTrim (s.data.map Char.toLower))).filter keepChar)

/-- JavaScript `Math.max` on rationals, written as an executable
conditional so that concrete scores evaluate by kernel reduction;
`jsMax_eq` identifies it with `max`. -/
def jsMax (a b : ℚ) : ℚ := if a ≤ b then b else a

/-- JavaScript `Math.min` on rationals; `jsMin_eq` identifies it with `min`. -/
def jsMin (a b : ℚ) : ℚ := if a ≤ b then a else b

/-- Total of `weightedPick`: `weights.reduce((a, w) => a + Math.max(0, w), 0)`. -/
def weightedTotal (weights : List ℚ) : ℚ :=
  weights.foldl (fun a w => a + jsMax 0 w) 0

/-- The subtraction loop of `weightedPick`: subtract `Math.max(0, weights[i])`
from `r` and return `items[i]` as soon as the remainder is `≤ 0`.
`none` models the loop running off the end of the list without a hit
(for same-length inputs this is exactly the source behaviour; the
source then returns the last element). -/
def weightedLoop {α : Type} : List α → List ℚ → ℚ → Option α
  | x :: xs, w :: ws, r =>
    if r - jsMax 0 w ≤ 0 then some x else weightedLoop xs ws (r - jsMax 0 w)
  | _, _, _ => none

/-- `items[Math.floor(u * items.length)]`, where `u` stands for the
`Math.random()` draw.  An out-of-range index yields `none` (JS `undefined`). -/
def jsFloorIndex {α : Type} (items : List α) (u : ℚ) : Option α :=
  let i : ℤ := ⌊u * (items.length : ℚ)⌋
  if 0 ≤ i then items[i.toNat]? else none

/-- `weightedPick` from the source.  `u` models the single `Math.random()`
call of the invocation, uniform in `[0, 1)`. -/
def weightedPick {α : Type} (items : List α) (weights : List ℚ) (u : ℚ) : Option α :=
  let total := weightedTotal weights
  if total ≤ 0 then jsFloorIndex items u
  else
    match weightedLoop items weights (u * total) with
    | some x => some x
    | none => items.getLast?

/-- First entry of the `STATIONS` array. -/
def allField : Station :=
  { name := "All Field"
    description := "A broad shuffle across the whole archive."
    tagWeights := []
    crossfadeDefaultSec := 6 }

/-- Second entry of the `STATIONS` array. -/
def campfireDrift : Station :=
  { name := "Campfire Drift"
    description := "Crackle-forward, night-songs, drum edges, human warmth."
    tagWeights := [("campfire", 4), ("night", 3), ("crickets", 2), ("drum", 2),
                   ("guitar", 2), ("fiddle", 2), ("flute", 1), ("crowd", 1), ("chant", 1)]
    crossfadeDefaultSec := 7 }

/-- Third entry of the `STATIONS` array. -/
def kitchenRadio : Station :=
  { name := "Kitchen Radio"
    description := "Work-as-rhythm: voices, clatter, logistics, mutual-aid energy."
    tagWeights := [("kitchen", 5), ("voice", 3), ("interview", 3), ("story", 2),
                   ("crowd", 2), ("evening", 1)]
    crossfadeDefaultSec := 5 }

/-- Fourth entry of the `STATIONS` array. -/
def dawnSoundTrail : Station :=
  { name := "Dawn Sound-Trail"
    description := "Birds, wind, river—gentle waking woods."
    tagWeights := [("dawn", 5), ("birds", 4), ("wind", 3), ("river", 3),
                   ("rain", 2), ("silence", 1), ("morning", 2)]
    crossfadeDefaultSec := 9 }

/-- Fifth entry of the `STATIONS` array. -/
def nightTrail : Station :=
  { name := "Night Trail"
    description := "Dark woods, distant drums, crickets—slow luminous drift."
    tagWeights := [("night", 5), ("crickets", 4), ("campfire", 2), ("drum", 2),
                   ("chant", 2), ("wind", 1), ("crowd", 1), ("silence", 1)]
    crossfadeDefaultSec := 8 }

/-- The `STATIONS` constant. -/
def STATIONS : List Station :=
  [allField, campfireDrift, kitchenRadio, dawnSoundTrail, nightTrail]

/-- `scoreTrack` from the source, with the enclosing component state
(the memoised `station` and the `nowPlaying` ref) passed explicitly.
The source tests `Object.keys(tw).length > 0` and takes the tag-weight
branch first; the `isEmpty` test here is its exact complement.  The
repeat-penalty guard `nowPlaying?.id && t.id === nowPlaying.id` requires
a non-empty (truthy) id on the playing track. -/
def scoreTrack (station : Station) (nowPlaying : Option Track) (t : Track) : ℚ :=
  let w0 : ℚ := t.weight.getD 1
  let tw := station.tagWeights
  let w1 : ℚ :=
    if tw.isEmpty then
      -- All Field: mild variety bias
      w0 + jsMin 2 ((t.tags.length : ℚ) * 0.25)
    else
      -- add weights for matching tags, then a small reward for having some tags
      (t.tags.foldl (fun acc tag =>
        match tw.lookup (normalizeTag tag) with
        | some v => acc + v
        | none => acc) w0)
      + jsMin 2 ((t.tags.length : ℚ) * 0.15)
  let w2 : ℚ :=
    match nowPlaying with
    | some np => if np.id ≠ "" ∧ t.id = np.id then w1 * 0.05 else w1
    | none => w1
  jsMax 0 w2

/-- `pickNextTrack` from the source.  Returns `none` exactly on an empty
catalog (`return null`). -/
def pickNextTrack (tracks : List Track) (station : Station)
    (nowPlaying : Option Track) (u : ℚ) : Option Track :=
  if tracks.isEmpty then none
  else if tracks.length == 1 then tracks[0]?
  else weightedPick tracks (tracks.map (scoreTrack station nowPlaying)) u

/-- Claim C1 as worded: score written with a raw (un-normalized) key lookup
per tag and with the repeat penalty applied whenever the candidate has the
id of the currently playing track. -/
def specScoreC1 (station : Station) (nowPlaying : Option Track) (t : Track) : ℚ :=
  let base : ℚ := t.weight.getD 1
  let s1 : ℚ :=
    if station.tagWeights ≠ [] then
      base + ((t.tags.map (fun tag => (station.tagWeights.lookup tag).getD 0)).sum)
           + jsMin 2 ((t.tags.length : ℚ) * 0.15)
    else
      base + jsMin 2 ((t.tags.length : ℚ) * 0.25)
  let s2 : ℚ := if nowPlaying.map Track.id = some t.id then s1 * 0.05 else s1
  jsMax 0 s2

/-- Claim C1 amended: per-tag weights are looked up under the tag key
normalized by `normalizeTag`, and the repeat penalty fires only when the
currently playing track has a non-empty id equal to the candidate id. -/
def specScoreC1Amended (station : Station) (nowPlaying : Option Track) (t : Track) : ℚ :=
  let base : ℚ := t.weight.getD 1
  let s1 : ℚ :=
    if station.tagWeights ≠ [] then
      base + ((t.tags.map (fun tag => (station.tagWeights.lookup (normalizeTag tag)).getD 0)).sum)
           + jsMin 2 ((t.tags.length : ℚ) * 0.15)
    else
      base + jsMin 2 ((t.tags.length : ℚ) * 0.25)
  let s2 : ℚ :=
    match nowPlaying with
    | some np => if np.id ≠ "" ∧ t.id = np.id then s1 * 0.05 else s1
    | none => s1
  jsMax 0 s2

/-- Subtraction process as worded by the spec for claim C3: subtract each
candidate weight in order from the drawn remainder and return the candidate
at which the remainder becomes `≤ 0`. -/
def specSubtract {α : Type} : List α → List ℚ → ℚ → Option α
  | x :: xs, w :: ws, r => if r - w ≤ 0 then some x else specSubtract xs ws (r - w)
  | _, _, _ => none

/-- Weighted draw as worded by the spec for claim C3: a uniform draw in
`[0, totalWeight)` (realised as `u * totalWeight` for `u ∈ [0, 1)`),
subtracted against the weights in catalog order, with a uniform-random
fallback when `totalWeight ≤ 0`. -/
def specDraw {α : Type} (items : List α) (weights : List ℚ) (u : ℚ) : Option α :=
  if weights.sum ≤ 0 then jsFloorIndex items u
  else specSubtract items weights (u * weights.sum)

/-- One playback deck (`type Deck` plus the observable state of its
`HTMLAudioElement` and `GainNode`).  `ramp` models a pending
`linearRampToValueAtTime` schedule as (target value, ramp seconds);
a direct assignment to `gain.gain.value` updates `gainValue`. -/
structure DeckState where
  track : Option Track
  paused : Bool
  gainValue : ℚ
  currentTime : ℚ
  ramp : Option (ℚ × ℚ)
deriving DecidableEq

/-- The two deck slots of the engine (`activeRef` holds `"A" | "B"`). -/
inductive DeckId where
  | A
  | B
deriving DecidableEq

/-- The other deck slot (`activeRef.current === "A" ? "B" : "A"`). -/
def otherDeck : DeckId → DeckId
  | .A => .B
  | .B => .A

/-- Mutable state of the App component relevant to playback: the loaded
catalog, the memoised station, the transport flags, the two decks and the
monitor-interval handle (`tickRef`, modelled as the Boolean
`tickRunning`).  The audio context and decks are modelled as always
constructed (`ensureCtx` is then the identity). -/
structure PlayerState where
  tracks : List Track
  station : Station
  nowPlaying : Option Track
  isPlaying : Bool
  radioMode : Bool
  volume : ℚ
  crossfadeSec : ℚ
  active : DeckId
  deckA : DeckState
  deckB : DeckState
  tickRunning : Bool
deriving DecidableEq

/-- `activeDeck()` from the source. -/
def activeDeck (s : PlayerState) : DeckState :=
  match s.active with
  | .A => s.deckA
  | .B => s.deckB

/-- `inactiveDeck()` from the source. -/
def inactiveDeck (s : PlayerState) : DeckState :=
  match s.active with
  | .A => s.deckB
  | .B => s.deckA

/-- Replace the currently active deck. -/
def updActive (s : PlayerState) (f : DeckState → DeckState) : PlayerState :=
  match s.active with
  | .A => { s with deckA := f s.deckA }
  | .B => { s with deckB := f s.deckB }

/-- Replace the currently inactive deck. -/
def updInactive (s : PlayerState) (f : DeckState → DeckState) : PlayerState :=
  match s.active with
  | .A => { s with deckB := f s.deckB }
  | .B => { s with deckA := f s.deckA }

/-- `playTrack(track, opts)` from the source.  `startOk` models whether
`await nxt.audio.play()` resolves; on rejection the exception propagates
after the inactive deck has been loaded and silenced, and nothing else
runs.  The `rampGain` calls of a crossfade are recorded as pending ramp
schedules (target, `Math.max(0.01, seconds)`); the delayed
`cur.audio.pause()` of the crossfade branch runs on a later timer and is
outside this synchronous step.  The `onended` callback installation has
no immediate state effect and is not modelled. -/
def playTrack (s : PlayerState) (track : Track) (crossfade : Bool) (startOk : Bool) :
    PlayerState :=
  let xfade := crossfade && s.isPlaying
  let s1 := updInactive s (fun n =>
    { n with track := some track, paused := true, currentTime := 0, gainValue := 0 })
  if !startOk then s1
  else
    let s2 := updInactive s1 (fun n => { n with paused := false })
    let s3 :=
      if xfade then
        updActive
          (updInactive s2 (fun n => { n with ramp := some (1, jsMax 0.01 s.crossfadeSec) }))
          (fun c => { c with ramp := some (0, jsMax 0.01 s.crossfadeSec) })
      else
        updInactive
          (updActive s2 (fun c => { c with gainValue := 0, paused := true }))
          (fun n => { n with gainValue := 1 })
    { s3 with
      active := otherDeck s.active
      nowPlaying := some track
      isPlaying := true
      tickRunning := true }

/-- Selection-and-start tail shared by `play()` and `next()`:
`const first = pickNextTrack(); if (!first) return; await playTrack(first, ...)`.
The second component records the track the Selection Engine produced
(`none` when selection was not reached or returned `null`). -/
def playSelect (s : PlayerState) (crossfade : Bool) (u : ℚ) (startOk : Bool) :
    PlayerState × Option Track :=
  match pickNextTrack s.tracks s.station s.nowPlaying u with
  | none => (s, none)
  | some first => (playTrack s first crossfade startOk, some first)

/-- `play()` from the source.  `resumeOk` models whether
`await cur.audio.play()` on the paused active deck resolves; on rejection
the `catch {}` falls through to fresh selection. -/
def play (s : PlayerState) (u : ℚ) (resumeOk : Bool) (startOk : Bool) :
    PlayerState × Option Track :=
  if s.tracks.isEmpty then (s, none)
  else
    let cur := activeDeck s
    if cur.track.isSome && cur.paused then
      if resumeOk then
        ({ updActive s (fun c => { c with paused := false }) with
            isPlaying := true, tickRunning := true }, none)
      else playSelect s false u startOk
    else playSelect s false u startOk

/-- `next(useCrossfade)` from the source. -/
def next (s : PlayerState) (useCrossfade : Bool) (u : ℚ) (startOk : Bool) :
    PlayerState × Option Track :=
  if s.tracks.isEmpty then (s, none)
  else playSelect s useCrossfade u startOk

/-- `stop()` from the source: pause both decks, zero both gain values,
clear `isPlaying`, stop the monitor interval. -/
def stop (s : PlayerState) : PlayerState :=
  { s with
    deckA := { s.deckA with paused := true, gainValue := 0 }
    deckB := { s.deckB with paused := true, gainValue := 0 }
    isPlaying := false
    tickRunning := false }

/-- Station swap: `setStationName` recomputes the `station` memo as
`STATIONS.find((s) => s.name === stationName) ?? STATIONS[0]`, and the
effect keyed on `station.crossfadeDefaultSec` re-runs exactly when that
default changed, snapping `crossfadeSec` to the new default when the
current value is within 2 seconds of it. -/
def setStation (s : PlayerState) (stationName : String) : PlayerState :=
  let st := (STATIONS.find? (fun t => t.name == stationName)).getD allField
  if st.crossfadeDefaultSec = s.station.crossfadeDefaultSec then
    { s with station := st }
  else
    { s with
      station := st
      crossfadeSec :=
        if |s.crossfadeSec - st.crossfadeDefaultSec| ≤ 2 then st.crossfadeDefaultSec
        else s.crossfadeSec }

/-- Inputs read by one monitor tick: the deck refs (`deckExists` is false
before `ensureCtx` ran), the `radioMode` and `isPlaying` flags, the
active audio element's duration (`none` models a non-finite duration:
`NaN` or `Infinity`), its position, and the crossfade setting. -/
structure TickEnv where
  deckExists : Bool
  radioMode : Bool
  isPlaying : Bool
  duration : Option ℚ
  currentTime : ℚ
  crossfadeSec : ℚ
deriving DecidableEq

/-- Monitor-loop state: the re-entrancy flag `pendingFadeRef` and the
time (in seconds) at which a scheduled `setTimeout` will clear it
(`none` when no release is scheduled). -/
structure MonitorState where
  pendingFade : Bool
  releaseAt : Option ℚ
deriving DecidableEq

/-- Events driving the monitor-loop model: an interval tick; the
settlement (fulfilment or rejection) of the `next(true)` promise at a
given time, whose `.finally` schedules the flag release 500 ms later;
and the firing of that scheduled timer. -/
inductive MEvent where
  | tick (env : TickEnv)
  | settle (success : Bool) (now : ℚ)
  | timerFired (now : ℚ)
deriving DecidableEq

/-- One step of the monitor-loop model.  The Boolean output records
whether this event triggered an automatic advance (a `next(true)` call).
The `tick` case is the `setInterval` callback of `startTick`, guard for
guard; `settle` is the `.finally` handler; `timerFired` is the body of
`setTimeout(() => (pendingFadeRef.current = false), 500)`. -/
def mstep (s : MonitorState) (e : MEvent) : MonitorState × Bool :=
  match e with
  | .tick env =>
    if !env.deckExists then (s, false)
    else if !env.radioMode || !env.isPlaying then (s, false)
    else
      match env.duration with
      | none => (s, false)
      | some d =>
        if d ≤ 0 then (s, false)
        else if d - env.currentTime ≤ env.crossfadeSec + 0.25 then
          if s.pendingFade then (s, false)
          else ({ s with pendingFade := true }, true)
        else (s, false)
  | .settle _success now => ({ s with releaseAt := some (now + 0.5) }, false)
  | .timerFired _now => ({ pendingFade := false, releaseAt := none }, false)

/-- Run the monitor model over a list of events; the Boolean output
records whether any event in the run triggered an automatic advance. -/
def mrun : MonitorState → List MEvent → MonitorState × Bool
  | s, [] => (s, false)
  | s, e :: es =>
    let p := mstep s e
    let q := mrun p.1 es
    (q.1, p.2 || q.2)

/-- Whether an event is the firing of the flag-release timer. -/
def isTimerFired : MEvent → Bool
  | .timerFired _ => true
  | _ => false

/-- Concrete track with no tags (scenario catalog, first track). -/
def trackNoTags : Track :=
  { id := "t1", name := "one", fileName := "one.mp3", url := "u1", tags := [], weight := some 1 }

/-- Concrete track tagged `["birds"]` (scenario catalog, second track). -/
def trackBirds : Track :=
  { id := "t2", name := "two", fileName := "two.mp3", url := "u2",
    tags := ["birds"], weight := some 1 }

/-- Concrete track tagged `["birds", "dawn"]` (scenario catalog, third track). -/
def trackBirdsDawn : Track :=
  { id := "t3", name := "three", fileName := "three.mp3", url := "u3",
    tags := ["birds", "dawn"], weight := some 1 }

/-- Concrete track whose single tag is spelled `"BIRDS"`: its normalized
form `"birds"` is a key of the Dawn Sound-Trail station, but the raw tag
is not. -/
def trackUpperBirds : Track :=
  { id := "t4", name := "four", fileName := "four.mp3", url := "u4",
    tags := ["BIRDS"], weight := some 1 }

/-- A deck holding a loaded, paused track. -/
def pausedDeck : DeckState :=
  { track := some trackNoTags, paused := true, gainValue := 0, currentTime := 30, ramp := none }

/-- An idle deck. -/
def idleDeck : DeckState :=
  { track := none, paused := true, gainValue := 0, currentTime := 0, ramp := none }

/-- Concrete player state: two-track catalog, deck A active with a
loaded, paused track. -/
def sampleState : PlayerState :=
  { tracks := [trackNoTags, trackBirds]
    station := allField
    nowPlaying := some trackNoTags
    isPlaying := false
    radioMode := true
    volume := 9/10
    crossfadeSec := 6
    active := .A
    deckA := pausedDeck
    deckB := idleDeck
    tickRunning := false }

/-- Concrete player state with an empty catalog. -/
def emptyCatalogState : PlayerState :=
  { sampleState with tracks := [] }

/-- Concrete tick environment in which every trigger condition of the
monitor loop holds: duration 120 s, position 113.8 s, crossfade 6 s. -/
def firingEnv : TickEnv :=
  { deckExists := true, radioMode := true, isPlaying := true,
    duration := some 120, currentTime := 1138/10, crossfadeSec := 6 }

/-- The executable `jsMax` is the lattice `max`. -/
theorem jsMax_eq (a b : ℚ) : jsMax a b = max a b := by
  simp [jsMax, max_def]

/-- The executable `jsMin` is the lattice `min`. -/
theorem jsMin_eq (a b : ℚ) : jsMin a b = min a b := by
  simp [jsMin, min_def]

/-- Clamping at zero yields a nonnegative value. -/
theorem jsMax_zero_nonneg (w : ℚ) : 0 ≤ jsMax 0 w := by
  rw [jsMax_eq]; exact le_max_left 0 w

/-- Clamping a nonnegative value at zero is the identity. -/
theorem jsMax_zero_of_nonneg {w : ℚ} (h : 0 ≤ w) : jsMax 0 w = w := by
  simp [jsMax, h]

/-- Clamping at zero is idempotent. -/
theorem jsMax_zero_idem (w : ℚ) : jsMax 0 (jsMax 0 w) = jsMax 0 w :=
  jsMax_zero_of_nonneg (jsMax_zero_nonneg w)

/-- Every score produced by `scoreTrack` is nonnegative (final clamp). -/
theorem scoreTrack_nonneg (station : Station) (np : Option Track) (t : Track) :
    0 ≤ scoreTrack station np t := by
  simp only [scoreTrack]
  exact jsMax_zero_nonneg _

/-- Folding clamped addition from `a` accumulates the sum of the clamps. -/
theorem foldl_add_jsMax (ws : List ℚ) (a : ℚ) :
    ws.foldl (fun acc w => acc + jsMax 0 w) a = a + (ws.map (fun w => jsMax 0 w)).sum := by
  induction ws generalizing a with
  | nil => simp
  | cons w ws ih => simp [List.foldl_cons, ih, add_assoc]

/-- `weightedTotal` is the sum of the clamped weights. -/
theorem weightedTotal_eq (ws : List ℚ) :
    weightedTotal ws = (ws.map (fun w => jsMax 0 w)).sum := by
  simpa [weightedTotal] using foldl_add_jsMax ws 0

/-- On nonnegative weights `weightedTotal` is the plain sum. -/
theorem weightedTotal_of_nonneg {ws : List ℚ} (h : ∀ w ∈ ws, 0 ≤ w) :
    weightedTotal ws = ws.sum := by
  rw [weightedTotal_eq]
  congr 1
  calc ws.map (fun w => jsMax 0 w) = ws.map id := by
        apply List.map_congr_left
        intro w hw
        simpa using jsMax_zero_of_nonneg (h w hw)
    _ = ws := List.map_id ws

/-- Pre-clamping the weights does not change `weightedTotal`. -/
theorem weightedTotal_clamp (ws : List ℚ) :
    weightedTotal (ws.map (fun w => jsMax 0 w)) = weightedTotal ws := by
  rw [weightedTotal_eq, weightedTotal_eq, List.map_map]
  congr 1
  apply List.map_congr_left
  intro w _
  simp [Function.comp, jsMax_zero_idem]

/-- Pre-clamping the weights does not change the subtraction loop. -/
theorem weightedLoop_clamp {α : Type} (xs : List α) (ws : List ℚ) (r : ℚ) :
    weightedLoop xs (ws.map (fun w => jsMax 0 w)) r = weightedLoop xs ws r := by
  induction xs generalizing ws r with
  | nil => cases ws <;> simp [weightedLoop]
  | cons x xs ih =>
    cases ws with
    | nil => simp [weightedLoop]
    | cons w ws =>
      simp only [List.map_cons, weightedLoop, jsMax_zero_idem]
      split <;> simp [ih]

/-- On nonnegative weights the source loop coincides with the spec's
plain subtraction process. -/
theorem weightedLoop_eq_specSubtract {α : Type} (xs : List α) {ws : List ℚ} (r : ℚ)
    (h : ∀ w ∈ ws, 0 ≤ w) :
    weightedLoop xs ws r = specSubtract xs ws r := by
  induction xs generalizing ws r with
  | nil => cases ws <;> simp [weightedLoop, specSubtract]
  | cons x xs ih =>
    cases ws with
    | nil => simp [weightedLoop, specSubtract]
    | cons w ws =>
      have hw : jsMax 0 w = w := jsMax_zero_of_nonneg (h w (by simp))
      simp only [weightedLoop, specSubtract, hw]
      split
      · rfl
      · exact ih _ (fun v hv => h v (by simp [hv]))

/-- If the remainder is at most the total weight, the subtraction process
hits some element of a nonempty same-length list. -/
theorem specSubtract_hit {α : Type} {xs : List α} {ws : List ℚ} {r : ℚ}
    (hne : xs ≠ []) (hlen : xs.length = ws.length) (hr : r ≤ ws.sum) :
    ∃ x ∈ xs, specSubtract xs ws r = some x := by
  induction xs generalizing ws r with
  | nil => exact absurd rfl hne
  | cons x xs ih =>
    cases ws with
    | nil => simp at hlen
    | cons w ws =>
      by_cases hc : r - w ≤ 0
      · exact ⟨x, by simp, by simp [specSubtract, hc]⟩
      · cases xs with
        | nil =>
          exfalso
          have hws : ws = [] := by simpa using hlen.symm
          rw [hws] at hr
          simp at hr
          exact hc (by linarith)
        | cons y ys =>
          have hlen' : (y :: ys).length = ws.length := by simpa using hlen
          have hr' : r - w ≤ ws.sum := by
            have : ws.sum = (w :: ws).sum - w := by simp [List.sum_cons]
            rw [this]
            linarith
          obtain ⟨z, hz, hzeq⟩ := ih (by simp) hlen' hr'
          exact ⟨z, by simp [hz], by simp [specSubtract, hc, hzeq]⟩

/-- For `u ∈ [0, 1)` the uniform fallback indexes into the list. -/
theorem jsFloorIndex_mem {α : Type} {items : List α} {u : ℚ}
    (hne : items ≠ []) (h0 : 0 ≤ u) (h1 : u < 1) :
    ∃ x ∈ items, jsFloorIndex items u = some x := by
  have hlen : 0 < items.length := List.length_pos.mpr hne
  have hnn : (0 : ℚ) ≤ u * (items.length : ℚ) :=
    mul_nonneg h0 (by positivity)
  have hfl0 : 0 ≤ ⌊u * (items.length : ℚ)⌋ := Int.floor_nonneg.mpr hnn
  have hlt : u * (items.length : ℚ) < (items.length : ℚ) := by
    have hposq : (0 : ℚ) < (items.length : ℚ) := by exact_mod_cast hlen
    calc u * (items.length : ℚ) < 1 * (items.length : ℚ) :=
          mul_lt_mul_of_pos_right h1 hposq
    _ = (items.length : ℚ) := one_mul _
  have hflt : ⌊u * (items.length : ℚ)⌋ < (items.length : ℤ) := by
    rw [Int.floor_lt]
    exact_mod_cast hlt
  have hidx : (⌊u * (items.length : ℚ)⌋).toNat < items.length := by
    omega
  refine ⟨items[(⌊u * (items.length : ℚ)⌋).toNat], List.getElem_mem hidx, ?_⟩
  simp only [jsFloorIndex]
  rw [if_pos hfl0]
  exact List.getElem?_eq_getElem hidx

/-- A hit of the subtraction loop lies in the list. -/
theorem weightedLoop_mem {α : Type} :
    ∀ {xs : List α} {ws : List ℚ} {r : ℚ} {x : α},
      weightedLoop xs ws r = some x → x ∈ xs := by
  intro xs
  induction xs with
  | nil => intro ws r x h; cases ws <;> simp [weightedLoop] at h
  | cons y ys ih =>
    intro ws r x h
    cases ws with
    | nil => simp [weightedLoop] at h
    | cons w ws =>
      simp only [weightedLoop] at h
      split at h
      · simp_all
      · exact List.mem_cons_of_mem y (ih h)

/-- The last element of a nonempty list is a member. -/
theorem getLast?_mem_self {α : Type} {l : List α} (h : l ≠ []) :
    ∃ x ∈ l, l.getLast? = some x := by
  induction l with
  | nil => exact absurd rfl h
  | cons a l ih =>
    cases l with
    | nil => exact ⟨a, by simp, by simp⟩
    | cons b l' =>
      obtain ⟨x, hx, he⟩ := ih (by simp)
      exact ⟨x, by simp [hx], by rw [List.getLast?_cons_cons]; exact he⟩

/-- On nonnegative weights, a same-length nonempty draw, `weightedPick`
coincides with the spec-worded draw `specDraw`. -/
theorem weightedPick_eq_specDraw {α : Type} {items : List α} {ws : List ℚ} {u : ℚ}
    (hw : ∀ w ∈ ws, 0 ≤ w) (hlen : items.length = ws.length) (hne : items ≠ [])
    (h1 : u < 1) :
    weightedPick items ws u = specDraw items ws u := by
  have htot : weightedTotal ws = ws.sum := weightedTotal_of_nonneg hw
  simp only [weightedPick, specDraw, htot]
  by_cases hts : ws.sum ≤ 0
  · rw [if_pos hts, if_pos hts]
  · have hpos : 0 < ws.sum := lt_of_not_le hts
    have hr : u * ws.sum ≤ ws.sum := by
      have := mul_lt_mul_of_pos_right h1 hpos
      rw [one_mul] at this
      exact le_of_lt this
    obtain ⟨x, _, hxe⟩ := specSubtract_hit hne hlen hr
    rw [if_neg hts, if_neg hts, weightedLoop_eq_specSubtract items (u * ws.sum) hw, hxe]

/-- The spec-worded draw returns a member of a nonempty same-length list
for `u ∈ [0, 1)`. -/
theorem specDraw_mem {α : Type} {items : List α} {ws : List ℚ} {u : ℚ}
    (hlen : items.length = ws.length) (hne : items ≠ []) (h0 : 0 ≤ u) (h1 : u < 1) :
    ∃ x ∈ items, specDraw items ws u = some x := by
  simp only [specDraw]
  by_cases hts : ws.sum ≤ 0
  · rw [if_pos hts]
    exact jsFloorIndex_mem hne h0 h1
  · have hpos : 0 < ws.sum := lt_of_not_le hts
    have hr : u * ws.sum ≤ ws.sum := by
      have := mul_lt_mul_of_pos_right h1 hpos
      rw [one_mul] at this
      exact le_of_lt this
    rw [if_neg hts]
    exact specSubtract_hit hne hlen hr

/-- `pickNextTrack` on a nonempty catalog equals the spec-worded weighted
draw over the per-candidate scores (the source's singleton shortcut
included). -/
theorem pickNextTrack_eq_specDraw (tracks : List Track) (station : Station)
    (np : Option Track) (u : ℚ) (hne : tracks ≠ []) (h0 : 0 ≤ u) (h1 : u < 1) :
    pickNextTrack tracks station np u =
      specDraw tracks (tracks.map (scoreTrack station np)) u := by
  have hwnn : ∀ w ∈ tracks.map (scoreTrack station np), 0 ≤ w := by
    intro w hw
    obtain ⟨t, _, rfl⟩ := List.mem_map.mp hw
    exact scoreTrack_nonneg station np t
  have hlen : tracks.length = (tracks.map (scoreTrack station np)).length :=
    (List.length_map tracks (scoreTrack station np)).symm
  simp only [pickNextTrack]
  rw [if_neg (by simpa [List.isEmpty_iff] using hne)]
  by_cases hone : tracks.length = 1
  · obtain ⟨t, rfl⟩ := List.length_eq_one.mp hone
    rw [if_pos (by simp)]
    have hmap : [t].map (scoreTrack station np) = [scoreTrack station np t] := by simp
    have hsum : ([scoreTrack station np t] : List ℚ).sum = scoreTrack station np t := by simp
    have hlhs : ([t] : List Track)[0]? = some t := rfl
    rw [hlhs, hmap]
    by_cases hz : scoreTrack station np t ≤ 0
    · simp only [specDraw]
      rw [if_pos (by rw [hsum]; exact hz)]
      obtain ⟨x, hx, he⟩ := jsFloorIndex_mem (show ([t] : List Track) ≠ [] by simp) h0 h1
      have hx' : x = t := by simpa using hx
      rw [he, hx']
    · have hpos : 0 < scoreTrack station np t := lt_of_not_le hz
      simp only [specDraw]
      rw [if_neg (by rw [hsum]; exact hz), hsum]
      have hhit : u * scoreTrack station np t - scoreTrack station np t ≤ 0 := by
        have := mul_lt_mul_of_pos_right h1 hpos
        rw [one_mul] at this
        linarith
      simp [specSubtract, hhit]
  · rw [if_neg (by simpa using hone)]
    exact weightedPick_eq_specDraw hwnn hlen hne h1

/-- Claim C3: for every non-empty catalog and station profile,
`pickNextTrack` returns a member of the catalog, and the draw it performs
is exactly the spec's subtraction draw over the scores — uniform draw in
`[0, totalWeight)`, subtraction in catalog order until the remainder is
`≤ 0`, uniform-random fallback when `totalWeight ≤ 0`. -/
theorem c3_pickNext_member_and_draw (tracks : List Track) (station : Station)
    (np : Option Track) (u : ℚ) (hne : tracks ≠ []) (h0 : 0 ≤ u) (h1 : u < 1) :
    (∃ t ∈ tracks, pickNextTrack tracks station np u = some t) ∧
    pickNextTrack tracks station np u =
      specDraw tracks (tracks.map (scoreTrack station np)) u := by
  have heq := pickNextTrack_eq_specDraw tracks station np u hne h0 h1
  refine ⟨?_, heq⟩
  rw [heq]
  exact specDraw_mem (List.length_map tracks (scoreTrack station np)).symm hne h0 h1

/-- Witness for C3 at a concrete two-track catalog and `u = 1/2`. -/
theorem c3_witness :
    ([trackNoTags, trackBirds] ≠ ([] : List Track)) ∧ ((0 : ℚ) ≤ 1/2) ∧ ((1/2 : ℚ) < 1) ∧
    ((∃ t ∈ [trackNoTags, trackBirds],
        pickNextTrack [trackNoTags, trackBirds] allField none (1/2) = some t) ∧
      pickNextTrack [trackNoTags, trackBirds] allField none (1/2) =
        specDraw [trackNoTags, trackBirds]
          ([trackNoTags, trackBirds].map (scoreTrack allField none)) (1/2)) :=
  ⟨by simp, by norm_num, by norm_num,
    c3_pickNext_member_and_draw [trackNoTags, trackBirds] allField none (1/2)
      (by simp) (by norm_num) (by norm_num)⟩

/-- Claim C4: a catalog of exactly one track always yields that track,
for every station and every currently-playing value. -/
theorem c4_singleton_always_returned (t : Track) (station : Station)
    (np : Option Track) (u : ℚ) :
    pickNextTrack [t] station np u = some t := by
  simp [pickNextTrack]

/-- Folding the conditional tag-weight addition from `a` accumulates the
sum of the looked-up weights (absent keys contributing 0). -/
theorem foldl_lookup_add (tw : List (String × ℚ)) (tags : List String) (a : ℚ) :
    tags.foldl (fun acc tag =>
      match tw.lookup (normalizeTag tag) with
      | some v => acc + v
      | none => acc) a
    = a + (tags.map (fun tag => (tw.lookup (normalizeTag tag)).getD 0)).sum := by
  induction tags generalizing a with
  | nil => simp
  | cons tg tags ih =>
    simp only [List.foldl_cons, List.map_cons, List.sum_cons]
    rw [ih]
    cases h : tw.lookup (normalizeTag tg) with
    | none => simp [h]
    | some v => simp [h, add_assoc]

/-- Claim C1, amended: the score equals the claim's formula once the
per-tag lookup key is `normalizeTag tag` (not the raw tag) and the
repeat penalty additionally requires the playing track's id to be
non-empty. -/
theorem c1_amended_score_formula (station : Station) (np : Option Track) (t : Track) :
    scoreTrack station np t = specScoreC1Amended station np t := by
  cases htw : station.tagWeights with
  | nil => simp [scoreTrack, specScoreC1Amended, htw]
  | cons p ps => simp [scoreTrack, specScoreC1Amended, htw, foldl_lookup_add]

/-- Claim C1 as stated is false: for the track tagged `"BIRDS"` under the
Dawn Sound-Trail station the source adds the weight of the normalized key
`"birds"` (score `103/20 = 5.15`), while the claim's raw-key formula
yields `23/20 = 1.15`. -/
theorem c1_counterexample :
    scoreTrack dawnSoundTrail none trackUpperBirds = 103/20 ∧
    specScoreC1 dawnSoundTrail none trackUpperBirds = 23/20 ∧
    scoreTrack dawnSoundTrail none trackUpperBirds ≠
      specScoreC1 dawnSoundTrail none trackUpperBirds := by
  have hn : normalizeTag "BIRDS" = "birds" := by decide
  have e0 : ("birds" == "dawn") = false := by decide
  have e0b : ("birds" == "birds") = true := by decide
  have e1 : ("BIRDS" == "dawn") = false := by decide
  have e2 : ("BIRDS" == "birds") = false := by decide
  have e3 : ("BIRDS" == "wind") = false := by decide
  have e4 : ("BIRDS" == "river") = false := by decide
  have e5 : ("BIRDS" == "rain") = false := by decide
  have e6 : ("BIRDS" == "silence") = false := by decide
  have e7 : ("BIRDS" == "morning") = false := by decide
  have h8 : (@none String = some "t4") = False := by simp
  have h9 : (([("dawn", (5:ℚ)), ("birds", 4), ("wind", 3), ("river", 3), ("rain", 2),
      ("silence", 1), ("morning", 2)] : List (String × ℚ)) = []) = False := by simp
  have hsrc : scoreTrack dawnSoundTrail none trackUpperBirds = 103/20 := by
    norm_num [scoreTrack, dawnSoundTrail, trackUpperBirds, jsMin, jsMax,
      List.lookup, hn, e0, e0b]
  have hspec : specScoreC1 dawnSoundTrail none trackUpperBirds = 23/20 := by
    norm_num [specScoreC1, dawnSoundTrail, trackUpperBirds, jsMin, jsMax,
      List.lookup, e1, e2, e3, e4, e5, e6, e7, h8, h9]
  refine ⟨hsrc, hspec, ?_⟩
  rw [hsrc, hspec]
  norm_num

/-- Score of a track under a station with no tag weights, when the track
is not (by id) the currently playing one: base weight plus the capped
variety bonus. -/
theorem scoreTrack_empty_station (station : Station) (np : Option Track) (t : Track)
    (hst : station.tagWeights = []) (hnp : ∀ np' ∈ np, np'.id ≠ t.id) :
    scoreTrack station np t =
      jsMax 0 (t.weight.getD 1 + jsMin 2 ((t.tags.length : ℚ) * 0.25)) := by
  simp only [scoreTrack, hst, List.isEmpty_nil, if_true]
  cases np with
  | none => rfl
  | some np' =>
    have hc : ¬ (np'.id ≠ "" ∧ t.id = np'.id) := fun h => absurd h.2.symm (hnp np' (by simp))
    simp [hc]

/-- Claim C2, amended: under an empty tag-weight station the three
scenario tracks (tags `[]`, `["birds"]`, `["birds","dawn"]`, weight 1,
none currently playing) score exactly `1`, `5/4 = 1.25` and `3/2 = 1.5`. -/
theorem c2_amended_scores (station : Station) (np : Option Track) (t1 t2 t3 : Track)
    (hst : station.tagWeights = [])
    (h1t : t1.tags = []) (h1w : t1.weight = some 1)
    (h2t : t2.tags = ["birds"]) (h2w : t2.weight = some 1)
    (h3t : t3.tags = ["birds", "dawn"]) (h3w : t3.weight = some 1)
    (hnp : ∀ np' ∈ np, np'.id ≠ t1.id ∧ np'.id ≠ t2.id ∧ np'.id ≠ t3.id) :
    scoreTrack station np t1 = 1 ∧ scoreTrack station np t2 = 5/4 ∧
      scoreTrack station np t3 = 3/2 := by
  refine ⟨?_, ?_, ?_⟩
  · rw [scoreTrack_empty_station station np t1 hst (fun x hx => (hnp x hx).1)]
    norm_num [h1t, h1w, jsMin, jsMax]
  · rw [scoreTrack_empty_station station np t2 hst (fun x hx => (hnp x hx).2.1)]
    norm_num [h2t, h2w, jsMin, jsMax]
  · rw [scoreTrack_empty_station station np t3 hst (fun x hx => (hnp x hx).2.2)]
    norm_num [h3t, h3w, jsMin, jsMax]

/-- Witness for the amended C2 at the All Field station and the concrete
scenario catalog. -/
theorem c2_witness :
    allField.tagWeights = [] ∧ trackNoTags.tags = [] ∧ trackBirds.tags = ["birds"] ∧
    trackBirdsDawn.tags = ["birds", "dawn"] ∧
    (scoreTrack allField none trackNoTags = 1 ∧
      scoreTrack allField none trackBirds = 5/4 ∧
      scoreTrack allField none trackBirdsDawn = 3/2) :=
  ⟨rfl, rfl, rfl, rfl,
    c2_amended_scores allField none trackNoTags trackBirds trackBirdsDawn
      rfl rfl rfl rfl rfl rfl rfl (by simp)⟩

/-- Claim C2 as stated is false: the middle scenario track (tags
`["birds"]`) scores `5/4 = 1.25`, not approximately `1.0375` (the gap
exceeds 1/10). -/
theorem c2_counterexample :
    scoreTrack allField none trackBirds = 5/4 ∧
    ¬ |scoreTrack allField none trackBirds - 1.0375| ≤ 1/10 := by
  have hv : scoreTrack allField none trackBirds = 5/4 := by
    norm_num [scoreTrack, allField, trackBirds, jsMin, jsMax]
  refine ⟨hv, ?_⟩
  rw [hv]
  norm_num [abs_sub_lt_iff, abs_le]

/-- Claim C10: `weightedPick` on a nonempty list with same-length weights
and `u ∈ [0, 1)` totally returns a member; negative weights act as 0; and
when the subtraction loop exhausts the list the last element is returned. -/
theorem c10_weightedPick_total {α : Type} (items : List α) (ws : List ℚ) (u : ℚ)
    (hlen : items.length = ws.length) (hne : items ≠ []) (h0 : 0 ≤ u) (h1 : u < 1) :
    (∃ x ∈ items, weightedPick items ws u = some x) ∧
    weightedPick items ws u = weightedPick items (ws.map (fun w => jsMax 0 w)) u ∧
    (0 < weightedTotal ws →
      weightedLoop items ws (u * weightedTotal ws) = none →
      weightedPick items ws u = items.getLast?) := by
  refine ⟨?_, ?_, ?_⟩
  · simp only [weightedPick]
    by_cases hts : weightedTotal ws ≤ 0
    · rw [if_pos hts]
      exact jsFloorIndex_mem hne h0 h1
    · rw [if_neg hts]
      cases hloop : weightedLoop items ws (u * weightedTotal ws) with
      | none => exact getLast?_mem_self hne
      | some x => exact ⟨x, weightedLoop_mem hloop, rfl⟩
  · simp only [weightedPick, weightedTotal_clamp, weightedLoop_clamp]
  · intro hpos hnone
    simp only [weightedPick]
    rw [if_neg (not_le.mpr hpos), hnone]

/-- Witness for C10: items `[10, 20]` with weights `[-5, 3]` (the negative
weight is clamped) and `u = 1/2`. -/
theorem c10_witness :
    (([10, 20] : List ℚ).length = ([-5, 3] : List ℚ).length) ∧
    (([10, 20] : List ℚ) ≠ []) ∧ ((0 : ℚ) ≤ 1/2) ∧ ((1/2 : ℚ) < 1) ∧
    ((∃ x ∈ ([10, 20] : List ℚ), weightedPick [10, 20] [-5, 3] (1/2) = some x) ∧
      weightedPick ([10, 20] : List ℚ) [-5, 3] (1/2) =
        weightedPick [10, 20] (([-5, 3] : List ℚ).map (fun w => jsMax 0 w)) (1/2) ∧
      (0 < weightedTotal [-5, 3] →
        weightedLoop ([10, 20] : List ℚ) [-5, 3] (1/2 * weightedTotal [-5, 3]) = none →
        weightedPick ([10, 20] : List ℚ) [-5, 3] (1/2) = ([10, 20] : List ℚ).getLast?)) :=
  ⟨rfl, by simp, by norm_num, by norm_num,
    c10_weightedPick_total [10, 20] [-5, 3] (1/2) rfl (by simp) (by norm_num) (by norm_num)⟩

/-- Updating the active deck updates exactly the active slot. -/
theorem activeDeck_updActive (s : PlayerState) (f : DeckState → DeckState) :
    activeDeck (updActive s f) = f (activeDeck s) := by
  cases h : s.active <;> simp [activeDeck, updActive, h]

/-- Updating the active deck leaves the inactive slot unchanged. -/
theorem inactiveDeck_updActive (s : PlayerState) (f : DeckState → DeckState) :
    inactiveDeck (updActive s f) = inactiveDeck s := by
  cases h : s.active <;> simp [inactiveDeck, updActive, h]

/-- Claim C6: with an empty catalog, `play()` and `next(useCrossfade)`
return without selecting a track and without changing any state. -/
theorem c6_empty_catalog_noop (s : PlayerState) (u : ℚ) (uc ro so : Bool)
    (h : s.tracks = []) :
    play s u ro so = (s, none) ∧ next s uc u so = (s, none) := by
  constructor <;> simp [play, next, h]

/-- Witness for C6 at a concrete empty-catalog state. -/
theorem c6_witness :
    emptyCatalogState.tracks = [] ∧
    (play emptyCatalogState (1/2) true true = (emptyCatalogState, none) ∧
      next emptyCatalogState true (1/2) true = (emptyCatalogState, none)) :=
  ⟨rfl, c6_empty_catalog_noop emptyCatalogState (1/2) true true true rfl⟩

/-- Claim C7: on a nonempty catalog, when the active deck holds a loaded
track and is paused and the resume call resolves, `play()` resumes in
place: no track is selected, the active deck is merely unpaused, the
other deck, the current track, the gains and every other playback field
are untouched, `isPlaying` is set and the monitor loop is (re)started.
Conversely a fresh selection can only happen when no such paused loaded
track is on the active deck. -/
theorem c7_play_resumes_in_place :
    (∀ (s : PlayerState) (u : ℚ) (so : Bool) (t : Track),
      s.tracks ≠ [] → (activeDeck s).track = some t → (activeDeck s).paused = true →
      (play s u true so).2 = none ∧
      activeDeck (play s u true so).1 = { activeDeck s with paused := false } ∧
      inactiveDeck (play s u true so).1 = inactiveDeck s ∧
      (play s u true so).1.active = s.active ∧
      (play s u true so).1.nowPlaying = s.nowPlaying ∧
      (play s u true so).1.isPlaying = true ∧
      (play s u true so).1.tickRunning = true ∧
      (play s u true so).1.tracks = s.tracks ∧
      (play s u true so).1.station = s.station ∧
      (play s u true so).1.crossfadeSec = s.crossfadeSec ∧
      (play s u true so).1.radioMode = s.radioMode ∧
      (play s u true so).1.volume = s.volume) ∧
    (∀ (s : PlayerState) (u : ℚ) (so : Bool) (sel : Track),
      (play s u true so).2 = some sel →
      ¬ ((activeDeck s).track.isSome = true ∧ (activeDeck s).paused = true)) := by
  constructor
  · intro s u so t hne ht hp
    have hplay : play s u true so =
        ({ updActive s (fun c => { c with paused := false }) with
            isPlaying := true, tickRunning := true }, none) := by
      simp [play, List.isEmpty_iff, hne, ht, hp]
    rw [hplay]
    refine ⟨rfl, ?_, ?_, ?_, ?_, rfl, rfl, ?_, ?_, ?_, ?_, ?_⟩ <;>
      cases h : s.active <;>
      simp [activeDeck, inactiveDeck, updActive, h, ht, hp]
  · intro s u so sel h2 hcond
    obtain ⟨hsome, hpaused⟩ := hcond
    by_cases hne : s.tracks.isEmpty
    · simp [play, hne] at h2
    · have : play s u true so =
          ({ updActive s (fun c => { c with paused := false }) with
              isPlaying := true, tickRunning := true }, none) := by
        simp [play, hne, hsome, hpaused]
      rw [this] at h2
      simp at h2

/-- Witness for C7 at the concrete sample state (deck A loaded and
paused). -/
theorem c7_witness :
    sampleState.tracks ≠ [] ∧ (activeDeck sampleState).track = some trackNoTags ∧
    (activeDeck sampleState).paused = true ∧
    ((play sampleState (1/2) true true).2 = none ∧
      activeDeck (play sampleState (1/2) true true).1 =
        { activeDeck sampleState with paused := false } ∧
      inactiveDeck (play sampleState (1/2) true true).1 = inactiveDeck sampleState ∧
      (play sampleState (1/2) true true).1.active = sampleState.active ∧
      (play sampleState (1/2) true true).1.nowPlaying = sampleState.nowPlaying ∧
      (play sampleState (1/2) true true).1.isPlaying = true ∧
      (play sampleState (1/2) true true).1.tickRunning = true ∧
      (play sampleState (1/2) true true).1.tracks = sampleState.tracks ∧
      (play sampleState (1/2) true true).1.station = sampleState.station ∧
      (play sampleState (1/2) true true).1.crossfadeSec = sampleState.crossfadeSec ∧
      (play sampleState (1/2) true true).1.radioMode = sampleState.radioMode ∧
      (play sampleState (1/2) true true).1.volume = sampleState.volume) :=
  ⟨by simp [sampleState], rfl, rfl,
    c7_play_resumes_in_place.1 sampleState (1/2) true trackNoTags
      (by simp [sampleState]) rfl rfl⟩

/-- Claim C8: `stop()` pauses both decks, zeroes both gain values, stops
the monitor loop and clears `isPlaying`, while the now-playing reference
(and everything else) is left unchanged. -/
theorem c8_stop_effect (s : PlayerState) :
    (stop s).deckA.paused = true ∧ (stop s).deckB.paused = true ∧
    (stop s).deckA.gainValue = 0 ∧ (stop s).deckB.gainValue = 0 ∧
    (stop s).tickRunning = false ∧ (stop s).isPlaying = false ∧
    (stop s).nowPlaying = s.nowPlaying ∧
    (stop s).deckA.track = s.deckA.track ∧ (stop s).deckB.track = s.deckB.track ∧
    (stop s).tracks = s.tracks ∧ (stop s).station = s.station ∧
    (stop s).crossfadeSec = s.crossfadeSec ∧ (stop s).radioMode = s.radioMode ∧
    (stop s).volume = s.volume ∧ (stop s).active = s.active := by
  simp [stop]

/-- Claim C9 as stated is false: switching the concrete state (station
All Field, crossfade 6 s) to "Campfire Drift" snaps the crossfade
duration to the new default 7 s, so a station change does modify
`crossfadeSec`. -/
theorem c9_counterexample :
    (setStation sampleState "Campfire Drift").crossfadeSec ≠ sampleState.crossfadeSec := by
  have f1 : ("All Field" == "Campfire Drift") = false := by decide
  have f2 : ("Campfire Drift" == "Campfire Drift") = true := by decide
  have hfind : STATIONS.find? (fun t => t.name == "Campfire Drift") = some campfireDrift := by
    simp [STATIONS, allField, campfireDrift, List.find?, f1, f2]
  norm_num [setStation, hfind, sampleState, allField, campfireDrift, abs_le]

/-- Claim C9, amended: a station swap replaces the station (the weighting
input of the Selection Engine) and additionally snaps `crossfadeSec` to
the new station's default when the default actually changed and the
current value is within 2 seconds of it; every other playback field is
unchanged. -/
theorem c9_amended_setStation_effect (s : PlayerState) (nm : String) :
    (setStation s nm).station = (STATIONS.find? (fun t => t.name == nm)).getD allField ∧
    (setStation s nm).crossfadeSec =
      (if ((STATIONS.find? (fun t => t.name == nm)).getD allField).crossfadeDefaultSec
            = s.station.crossfadeDefaultSec then s.crossfadeSec
        else if |s.crossfadeSec -
              ((STATIONS.find? (fun t => t.name == nm)).getD allField).crossfadeDefaultSec| ≤ 2
          then ((STATIONS.find? (fun t => t.name == nm)).getD allField).crossfadeDefaultSec
          else s.crossfadeSec) ∧
    (setStation s nm).tracks = s.tracks ∧ (setStation s nm).nowPlaying = s.nowPlaying ∧
    (setStation s nm).isPlaying = s.isPlaying ∧ (setStation s nm).radioMode = s.radioMode ∧
    (setStation s nm).volume = s.volume ∧ (setStation s nm).active = s.active ∧
    (setStation s nm).deckA = s.deckA ∧ (setStation s nm).deckB = s.deckB ∧
    (setStation s nm).tickRunning = s.tickRunning := by
  simp only [setStation]
  split <;> simp_all

/-- Claim C5: an automatic advance fires only on a tick whose deck
duration is known, finite and positive with remaining time at most
`crossfadeSec + 0.25` while the pending-fade flag is clear; firing sets
the flag; while the flag is set no run of tick/settle events can fire
again until the release timer does; the settle of the `next(true)`
promise schedules the release 500 ms later whether it succeeded or
failed; and the timer clears the flag unconditionally. -/
theorem c5_monitor_guard :
    (∀ (s : MonitorState) (env : TickEnv),
      (mstep s (.tick env)).2 = true →
      (∃ d, env.duration = some d ∧ 0 < d ∧
        d - env.currentTime ≤ env.crossfadeSec + 0.25) ∧
      s.pendingFade = false ∧ (mstep s (.tick env)).1.pendingFade = true) ∧
    (∀ (s : MonitorState) (evs : List MEvent),
      s.pendingFade = true → (∀ e ∈ evs, isTimerFired e = false) →
      (mrun s evs).2 = false ∧ (mrun s evs).1.pendingFade = true) ∧
    (∀ (s : MonitorState) (success : Bool) (now : ℚ),
      (mstep s (.settle success now)).1 = { s with releaseAt := some (now + 0.5) } ∧
      (mstep s (.settle success now)).2 = false) ∧
    (∀ (s : MonitorState) (now : ℚ), (mstep s (.timerFired now)).1.pendingFade = false) := by
  have hstep_keep : ∀ (s : MonitorState) (e : MEvent), s.pendingFade = true →
      isTimerFired e = false → (mstep s e).1.pendingFade = true ∧ (mstep s e).2 = false := by
    intro s e hflag hnt
    cases e with
    | tick env =>
      simp only [mstep]
      repeat' split
      all_goals simp_all
    | settle success now => simp [mstep, hflag]
    | timerFired now => simp [isTimerFired] at hnt
  refine ⟨?_, ?_, ?_, ?_⟩
  · intro s env h
    have h' := h
    simp only [mstep] at h'
    repeat' split at h'
    all_goals simp_all [mstep]
    split
    · exfalso; linarith
    · rfl
  · intro s evs
    induction evs generalizing s with
    | nil => intro hflag _; simp [mrun, hflag]
    | cons e es ih =>
      intro hflag hnotimer
      have hstep := hstep_keep s e hflag (hnotimer e (by simp))
      have hrest := ih (mstep s e).1 hstep.1
        (fun e' he' => hnotimer e' (List.mem_cons_of_mem _ he'))
      constructor
      · simp [mrun, hstep.2, hrest.1]
      · simp [mrun, hrest.2]
  · intro s success now
    exact ⟨rfl, rfl⟩
  · intro s now
    rfl

/-- Witness for C5: the firing environment (duration 120 s, position
113.8 s, crossfade 6 s) triggers from a clear flag; a set flag survives a
tick and a failed settle; settle schedules the release at `now + 0.5`;
the timer clears the flag. -/
theorem c5_witness :
    ((mstep ⟨false, none⟩ (.tick firingEnv)).2 = true) ∧
    ((∃ d, firingEnv.duration = some d ∧ 0 < d ∧
        d - firingEnv.currentTime ≤ firingEnv.crossfadeSec + 0.25) ∧
      (⟨false, none⟩ : MonitorState).pendingFade = false ∧
      (mstep ⟨false, none⟩ (.tick firingEnv)).1.pendingFade = true) ∧
    ((mrun ⟨true, none⟩ [.tick firingEnv, .settle false 3]).2 = false ∧
      (mrun ⟨true, none⟩ [.tick firingEnv, .settle false 3]).1.pendingFade = true) ∧
    ((mstep ⟨true, none⟩ (.settle false 3)).1 =
        { pendingFade := true, releaseAt := some ((3 : ℚ) + 0.5) } ∧
      (mstep ⟨true, none⟩ (.settle false 3)).2 = false) ∧
    (mstep ⟨true, none⟩ (.timerFired 7)).1.pendingFade = false := by
  have htick : (mstep ⟨false, none⟩ (.tick firingEnv)).2 = true := by
    norm_num [mstep, firingEnv]
  refine ⟨htick, c5_monitor_guard.1 ⟨false, none⟩ firingEnv htick, ?_, ?_, ?_⟩
  · exact c5_monitor_guard.2.1 ⟨true, none⟩ [.tick firingEnv, .settle false 3] rfl
      (by simp [List.forall_mem_cons, isTimerFired])
  · exact c5_monitor_guard.2.2.1 ⟨true, none⟩ false 3
  · exact c5_monitor_guard.2.2.2 ⟨true, none⟩ 7

end RainbowRadio
